import Mathlib

/-!
Verification development for the page-metadata extraction engine.

The source program is a rule-set driven metadata extractor: a static catalog
maps each metadata field to a rule-set (prioritized CSS selectors with
extractors, optional scorers, an optional default value, and a processor
pipeline), and an evaluator scores every matching element and post-processes
the winning raw value.  This file gives a shallow embedding of that engine:

* JavaScript values that flow through the evaluator are modelled by `Value`
  (string, array of strings, or null/undefined collapsed into `Value.undefined`)
  and scores by `ScoreVal` (a number or a string, since the icon scorer
  returns the regex match, a string).  The JavaScript `>` comparison on
  scores is modelled by `jsGt`: numeric when at least one side is a number,
  lexicographic between two strings.
* The DOM and the selector engine are external collaborators of the program;
  they are modelled by a document-ordered list of `Element` values and a
  `Selector` datatype covering the selector forms the catalog uses.
  Structural selectors (descendant, class, id combinations) that a flat
  element list cannot evaluate are modelled as an oracle recorded on the
  element (`Element.extra`).
* The platform WHATWG URL constructor is an external collaborator; it is
  modelled by `parseUrlParts` / `makeUrlAbsolute` in simplified form: a URL
  parses when it has a well-formed scheme, the separator and a non-empty
  host, and the base string is parsed first, so an unparsable base is a
  thrown TypeError (`none`) no matter what the relative reference is.
* Exceptions are modelled by `Option`: `none` is a thrown error.

All names follow the source where Lean allows it (`buildRuleSet`, `parse`,
`metadataRuleSets`, `makeUrlAbsolute`, `parseUrl`, `getProvider`, the
extractors `hrefAttribute` / `contentAttribute` / `textContent`).  The
repository carries two near-duplicate variants of the parser module; the
primary embedding follows the first (Sizzle) variant, whose lines the claims
cite; the second variant differs in its `getProvider`, embedded here as
`getProvider2`.
-/

namespace PageMetadata

/-- JavaScript value flowing through the evaluator: a string, an array of
strings (produced by the keywords processor), or null/undefined (both falsy,
collapsed into `undefined`). -/
inductive Value where
  | str (s : String)
  | arr (l : List String)
  | undefined
deriving DecidableEq

/-- Score of an element: a number (the base score `ruleCount - index`) or a
string (the icon scorer returns the regex match `sizes.match(/\d+/g)[0]`,
which is a string). -/
inductive ScoreVal where
  | num (n : Int)
  | str (s : String)
deriving DecidableEq

/-- JavaScript truthiness of a `Value`: empty string, null and undefined are
falsy; arrays are always truthy. -/
def truthyV : Value → Bool
  | .str s => !s.isEmpty
  | .arr _ => true
  | .undefined => false

/-- JavaScript truthiness of a score (`if (newScore)` in the source): 0 is
falsy, a non-empty string is truthy. -/
def truthyScore : ScoreVal → Bool
  | .num n => decide (n ≠ 0)
  | .str s => !s.isEmpty

/-- Lexicographic comparison of two character lists, the way JavaScript
compares two strings with `<` / `>` (code-unit order; for the digit strings
the icon scorer produces, code units and code points agree). -/
def lexLt : List Char → List Char → Bool
  | [], [] => false
  | [], _ :: _ => true
  | _ :: _, [] => false
  | a :: as, b :: bs =>
    if a < b then true
    else if b < a then false
    else lexLt as bs

/-- Value of a digit list read as a decimal number. -/
def digitsValAux : List Char → Int → Int
  | [], acc => acc
  | c :: rest, acc => digitsValAux rest (acc * 10 + ((c.toNat : Int) - ('0'.toNat : Int)))

/-- JavaScript ToNumber on a score, modelled for the values the program
produces: numbers map to themselves and non-empty all-digit strings (exactly
what the scorer regex `/\d+/` yields) to their decimal value; anything else
is NaN, modelled as `none`, and NaN makes every comparison false. -/
def toNumber : ScoreVal → Option Int
  | .num n => some n
  | .str s =>
    if !s.data.isEmpty && s.data.all Char.isDigit then some (digitsValAux s.data 0)
    else none

/-- The JavaScript `>` comparison used by `score > maxScore`: when both
operands are strings the comparison is lexicographic, otherwise both are
converted to numbers (NaN yields false). -/
def jsGt (a b : ScoreVal) : Bool :=
  match a, b with
  | .str x, .str y => lexLt y.data x.data
  | _, _ =>
    match toNumber a, toNumber b with
    | some m, some n => decide (n < m)
    | _, _ => false

/-- Whitespace recognised by the model of `String.prototype.trim` (the ASCII
portion of the JavaScript white-space set; the inputs of interest only use
spaces and newlines). -/
def isJsSpace (c : Char) : Bool :=
  c == ' ' || c == '\t' || c == '\n' || c == '\r'

/-- Model of `String.prototype.trim`: drop leading and trailing whitespace. -/
def jsTrim (s : String) : String :=
  ⟨((s.data.dropWhile isJsSpace).reverse.dropWhile isJsSpace).reverse⟩

/-- Model of `String.prototype.split` with a single-character separator:
`"a,,b".split(",")` is `["a", "", "b"]`, the empty string splits to `[""]`,
and no piece is dropped. -/
def splitOnChar (sep : Char) : List Char → List (List Char)
  | [] => [[]]
  | c :: rest =>
    if c == sep then [] :: splitOnChar sep rest
    else
      match splitOnChar sep rest with
      | [] => [[c]]
      | p :: ps => (c :: p) :: ps

/-- Occurrences of a character in a list (used to state that the keywords
split never drops a piece). -/
def countChar (sep : Char) : List Char → Nat
  | [] => 0
  | c :: rest => (if c == sep then 1 else 0) + countChar sep rest

/-- Character class of the snippet regex `[\n ]`. -/
def isNlOrSpace (c : Char) : Bool :=
  c == '\n' || c == ' '

/-- Model of `.replace(/[\n ]+/g, " ")`: every maximal run of newlines and
spaces becomes a single space.  The Boolean state records whether the
previous character belonged to a run already replaced. -/
def collapseAux : Bool → List Char → List Char
  | _, [] => []
  | inRun, c :: rest =>
    if isNlOrSpace c then
      if inRun then collapseAux true rest
      else ' ' :: collapseAux true rest
    else c :: collapseAux false rest

/-- No two adjacent spaces occur in the list (used to state what collapsing
achieves). -/
def noDoubleSpace : List Char → Bool
  | [] => true
  | [_] => true
  | a :: b :: rest => (!(a == ' ' && b == ' ')) && noDoubleSpace (b :: rest)

/-- First maximal digit run of a string, as a list of characters: the model
of `sizes.match(/\d+/g)` followed by taking element 0.  `none` when the
string holds no digit (the regex match is null). -/
def firstDigitRun : List Char → Option (List Char)
  | [] => none
  | c :: rest =>
    if c.isDigit then some (c :: rest.takeWhile Char.isDigit)
    else firstDigitRun rest

/-- Character allowed in a URL scheme after the first (alphabetic) one. -/
def isSchemeChar (c : Char) : Bool :=
  c.isAlphanum || c == '+' || c == '-' || c == '.'

/-- Split a character list at the first `://`, returning the part before and
the part after, or `none` when the separator never occurs. -/
def findSchemeSplit : List Char → Option (List Char × List Char)
  | ':' :: '/' :: '/' :: rest => some ([], rest)
  | c :: rest => (findSchemeSplit rest).map (fun p => (c :: p.1, p.2))
  | [] => none

/-- Character ending the host portion of a URL in this model. -/
def isHostDelim (c : Char) : Bool :=
  c == '/' || c == '?' || c == '#' || c == ':'

/-- Parsed pieces of an absolute URL in the simplified platform model. -/
structure UrlParts where
  scheme : String
  host : String
  path : String
deriving DecidableEq

/-- Model of the platform WHATWG URL parser (an external collaborator of the
program, reached through `new URL(...)`): a string parses when it has an
alphabetic-initial scheme, the `://` separator and a non-empty host; a
failure to parse is the thrown TypeError, modelled as `none`.  Ports and
queries are folded into `path`; this simplification does not affect any
claim. -/
def parseUrlParts (u : String) : Option UrlParts :=
  match findSchemeSplit u.data with
  | none => none
  | some (sch, rest) =>
    match sch with
    | [] => none
    | c :: cs =>
      if c.isAlpha && cs.all isSchemeChar then
        match rest.takeWhile (fun d => !isHostDelim d) with
        | [] => none
        | h => some ⟨⟨c :: cs⟩, ⟨h⟩, ⟨rest.dropWhile (fun d => !isHostDelim d)⟩⟩
      else none

/-- Source `parseUrl`: `new URL(url).host` — the host of the parsed URL, or
a thrown error (`none`) when the URL does not parse. -/
def parseUrl (url : String) : Option String :=
  (parseUrlParts url).map UrlParts.host

/-- Directory part of a path: everything up to and including the last slash
(the whole model of relative-reference resolution is simplified; no claim
depends on its fine points). -/
def dirOf (l : List Char) : List Char :=
  let r := ((l.reverse.dropWhile (fun c => c != '/'))).reverse
  if r.isEmpty then ['/'] else r

/-- Source `makeUrlAbsolute`: `new URL(relative, base).href`.  Per the
WHATWG constructor the base string is parsed first, so an unparsable base is
a thrown TypeError (`none`) regardless of the relative reference; otherwise
an absolute-looking reference is returned as is, a root-relative one is
joined to the authority and any other is joined to the directory of the base
path. -/
def makeUrlAbsolute (base relative : String) : Option String :=
  match parseUrlParts base with
  | none => none
  | some parts =>
    if (findSchemeSplit relative.data).isSome then some relative
    else
      match relative.data with
      | '/' :: _ => some (parts.scheme ++ "://" ++ parts.host ++ relative)
      | _ => some (parts.scheme ++ "://" ++ parts.host ++ (⟨dirOf parts.path.data⟩ : String) ++ relative)

/-- Matcher of the regex `www[a-zA-Z0-9]*\.` anchored at the head of the
list: three `w` characters, a greedy run of alphanumerics, then a literal
dot; returns the remainder after the match.  The dot is not alphanumeric, so
the greedy run needs no backtracking. -/
def wwwTail (l : List Char) : Option (List Char) :=
  match l with
  | 'w' :: 'w' :: 'w' :: rest =>
    match rest.dropWhile Char.isAlphanum with
    | '.' :: after => some after
    | _ => none
  | _ => none

/-- Model of `host.replace(/www[a-zA-Z0-9]*\./, "")`: remove the leftmost
match of the pattern, wherever in the string it occurs (the regex carries no
anchor). -/
def stripWwwMatch : List Char → List Char
  | [] => []
  | c :: rest =>
    match wwwTail (c :: rest) with
    | some after => after
    | none => c :: stripWwwMatch rest

/-- Model of `.replace(".co.", ".")` with a string pattern: only the first
occurrence is replaced. -/
def replaceFirstCo : List Char → List Char
  | '.' :: 'c' :: 'o' :: '.' :: rest => '.' :: rest
  | c :: rest => c :: replaceFirstCo rest
  | [] => []

/-- Source `getProvider` of the primary (Sizzle) parser variant: strip the
first `www[a-zA-Z0-9]*\.` match from the host and return the rest. -/
def getProvider (host : String) : String :=
  ⟨stripWwwMatch host.data⟩

/-- Source `getProvider` of the second parser variant: strip the first
`www`-like match, replace the first `.co.` with `.`, split on dots, drop the
last label and join the rest with spaces. -/
def getProvider2 (host : String) : String :=
  String.intercalate " "
    (((splitOnChar '.' (replaceFirstCo (stripWwwMatch host.data))).map
      (fun p => (⟨p⟩ : String))).dropLast)

/-- Modelled from the spec: the provider-name derivation in the words of the
specification (claim C6) — strip a leading `www`-like subdomain label,
collapse a `.co.` infix, then join the remaining domain labels minus the TLD
label with spaces.  Written for comparison with the source functions
`getProvider` and `getProvider2`. -/
def specProviderName (host : String) : String :=
  let stripped :=
    match wwwTail host.data with
    | some rest => rest
    | none => host.data
  String.intercalate " "
    (((splitOnChar '.' (replaceFirstCo stripped)).map
      (fun p => (⟨p⟩ : String))).dropLast)

/-- Element of the parsed document, as the external DOM collaborator exposes
it to the engine: a tag name, attributes, aggregated text content, and — for
the structural selectors (descendant, class, id) that a flat element list
cannot evaluate — the oracle `extra`, the set of structural selector strings
the external selector engine reports this element as matching. -/
structure Element where
  tag : String
  attrs : List (String × String)
  text : String
  extra : List String
deriving DecidableEq

/-- Model of `element.getAttribute(name)`: first attribute with the name, or
null (`none`). -/
def getAttribute (e : Element) (name : String) : Option String :=
  (e.attrs.find? (fun p => p.1 == name)).map (fun p => p.2)

/-- CSS selector forms that the rule catalog uses.  Attribute-equality,
attribute-presence and tag selectors are evaluated against the element;
anything structural is delegated to the selector-engine oracle. -/
inductive Selector where
  | tagSel (t : String)
  | attrEq (t attr val : String)
  | attrPresent (t attr : String)
  | structural (raw : String)
deriving DecidableEq

/-- Whether an element matches a selector. -/
def matchesSel (sel : Selector) (e : Element) : Bool :=
  match sel with
  | .tagSel t => e.tag == t
  | .attrEq t attr val => e.tag == t && getAttribute e attr == some val
  | .attrPresent t attr => e.tag == t && (getAttribute e attr).isSome
  | .structural raw => e.extra.contains raw

/-- Model of the selector-engine collaborator: the document-ordered list of
elements matching the selector. -/
def querySelectorAll (sel : Selector) (doc : List Element) : List Element :=
  doc.filter (matchesSel sel)

/-- The extractors the catalog uses, as a tagged type: read `href`, read
`content`, read the text content, read `lang`. -/
inductive Extractor where
  | hrefAttribute
  | contentAttribute
  | textContent
  | langAttribute
deriving DecidableEq

/-- Apply an extractor to an element; `getAttribute` may return null, which
flows into the evaluator as a falsy raw value. -/
def applyExtractor (ex : Extractor) (e : Element) : Value :=
  match ex with
  | .hrefAttribute =>
    match getAttribute e "href" with
    | some s => .str s
    | none => .undefined
  | .contentAttribute =>
    match getAttribute e "content" with
    | some s => .str s
    | none => .undefined
  | .textContent => .str e.text
  | .langAttribute =>
    match getAttribute e "lang" with
    | some s => .str s
    | none => .undefined

/-- The scorers of the catalog: only the icon rule-set has one. -/
inductive Scorer where
  | iconSize
deriving DecidableEq

/-- The icon scorer of the source: read the `sizes` attribute; when truthy
and it contains a digit run, return the first run — as a string, exactly
what `sizes.match(/\d+/g)[0]` yields.  `none` models the scorer returning
undefined. -/
def applyScorer (sc : Scorer) (e : Element) (_score : ScoreVal) : Option ScoreVal :=
  match sc with
  | .iconSize =>
    match getAttribute e "sizes" with
    | none => none
    | some sizes =>
      if sizes.isEmpty then none
      else
        match firstDigitRun sizes.data with
        | none => none
        | some run => some (.str ⟨run⟩)

/-- The default values of the catalog, tagged: the context url (url field),
the literal `"favicon.ico"` (icon field), and the provider name derived from
the host of the context url (provider field; this one can throw, since it
parses the url). -/
inductive DefaultVal where
  | contextUrl
  | faviconIco
  | providerFromUrl
deriving DecidableEq

/-- The processors of the catalog, tagged: the snippet whitespace collapse
and 500-character cut, URL resolution against the context url, the keywords
comma split, and the primary language subtag. -/
inductive Processor where
  | snippetCollapse
  | urlAbsolute
  | keywordsSplit
  | languagePrimary
deriving DecidableEq

/-- Per-invocation context: the source url (source `context = { url }`). -/
structure Context where
  url : String
deriving DecidableEq

/-- Apply a default value; `none` is a thrown error (an unparsable context
url in the provider default). -/
def applyDefault (d : DefaultVal) (ctx : Context) : Option Value :=
  match d with
  | .contextUrl => some (.str ctx.url)
  | .faviconIco => some (.str "favicon.ico")
  | .providerFromUrl => (parseUrl ctx.url).map (fun host => .str (getProvider host))

/-- Apply one processor to the current value; `none` is a thrown error: URL
resolution with an unparsable base, or a string method reached with an array
argument (not reachable through the catalog). -/
def applyProcessor (p : Processor) (v : Value) (ctx : Context) : Option Value :=
  match p with
  | .snippetCollapse =>
    match v with
    | .str s => some (.str ⟨(collapseAux false s.data).take 500⟩)
    | .undefined => some (.str "")
    | .arr _ => none
  | .urlAbsolute =>
    match v with
    | .str s => (makeUrlAbsolute ctx.url s).map .str
    | _ => none
  | .keywordsSplit =>
    match v with
    | .str s => some (.arr ((splitOnChar ',' s.data).map (fun piece => jsTrim ⟨piece⟩)))
    | _ => none
  | .languagePrimary =>
    match v with
    | .str s => some (.str ⟨(splitOnChar '-' s.data).headD []⟩)
    | _ => none

/-- A rule-set of the catalog: prioritized rules, optional scorers, optional
default value, processor pipeline (an empty list behaves as an absent
field, as in the source). -/
structure RuleSet where
  rules : List (Selector × Extractor)
  scorers : List Scorer
  defaultValue : Option DefaultVal
  processors : List Processor
deriving DecidableEq

/-- Base score of the rule at 0-based index `i` in the source loop:
`ruleSet.rules.length - currRule`. -/
def baseScore (rs : RuleSet) (i : Nat) : ScoreVal :=
  .num ((rs.rules.length : Int) - (i : Int))

/-- Score of an element matched by the rule at index `i`: start from the
base score, then let each scorer in order overwrite it whenever the scorer
returns a truthy value (`if (newScore) score = newScore`). -/
def scoreElement (rs : RuleSet) (i : Nat) (e : Element) : ScoreVal :=
  rs.scorers.foldl
    (fun score sc =>
      match applyScorer sc e score with
      | some newScore => if truthyScore newScore then newScore else score
      | none => score)
    (baseScore rs i)

/-- Inner loop of the evaluator over the elements matched by one rule:
update the accumulator exactly when the element score strictly exceeds the
best score so far (`if (score > maxScore)`), in JavaScript comparison
semantics. -/
def foldElements (rs : RuleSet) (i : Nat) (ex : Extractor) :
    List Element → ScoreVal × Value → ScoreVal × Value
  | [], acc => acc
  | e :: es, acc =>
    foldElements rs i ex es
      (if jsGt (scoreElement rs i e) acc.1 then (scoreElement rs i e, applyExtractor ex e)
       else acc)

/-- Outer loop of the evaluator over the rules in priority order, tracking
the absolute rule index. -/
def runRulesAux (rs : RuleSet) (doc : List Element) :
    Nat → List (Selector × Extractor) → ScoreVal × Value → ScoreVal × Value
  | _, [], acc => acc
  | i, r :: rest, acc =>
    runRulesAux rs doc (i + 1) rest (foldElements rs i r.2 (querySelectorAll r.1 doc) acc)

/-- The scoring loop of `buildRuleSet`, started from `maxScore = 0` and
`maxValue` undefined; yields the final `(maxScore, maxValue)` pair. -/
def runRules (rs : RuleSet) (doc : List Element) : ScoreVal × Value :=
  runRulesAux rs doc 0 rs.rules (.num 0, .undefined)

/-- Default-value stage of `buildRuleSet`: `if (!maxValue &&
ruleSet.defaultValue) maxValue = ruleSet.defaultValue(context)`. -/
def applyDefaultStage (rs : RuleSet) (mv : Value) (ctx : Context) : Option Value :=
  if truthyV mv then some mv
  else
    match rs.defaultValue with
    | some d => applyDefault d ctx
    | none => some mv

/-- Processor pipeline of `buildRuleSet`: run each processor in order on the
previous output; a throw aborts. -/
def runProcessors : List Processor → Value → Context → Option Value
  | [], v, _ => some v
  | p :: rest, v, ctx =>
    match applyProcessor p v ctx with
    | none => none
    | some w => runProcessors rest w ctx

/-- Final trim of `buildRuleSet`: `if (maxValue.trim) maxValue =
maxValue.trim()` — only strings support trimming. -/
def trimValue : Value → Value
  | .str s => .str (jsTrim s)
  | v => v

/-- Final stage of `buildRuleSet`: when the selected value is truthy, run
the processors and the trim and return the result; otherwise the function
falls off its end, returning undefined. -/
def finishStage (rs : RuleSet) (ov : Option Value) (ctx : Context) : Option Value :=
  match ov with
  | none => none
  | some v =>
    if truthyV v then (runProcessors rs.processors v ctx).map trimValue
    else some Value.undefined

/-- Source `buildRuleSet` applied to a document and context: the scoring
loop, then the default-value fallback, then processing, trim and return.
`none` models the evaluation throwing. -/
def buildRuleSet (ruleSet : RuleSet) (doc : List Element) (ctx : Context) : Option Value :=
  finishStage ruleSet (applyDefaultStage ruleSet (runRules ruleSet doc).2 ctx) ctx

/-- First matching rule, scanning from absolute index `i`: index, extractor
and first matched element of the first rule whose selector matches anything.
Used to state what the evaluator picks when no scorer interferes. -/
def firstHitAux (doc : List Element) :
    Nat → List (Selector × Extractor) → Option (Nat × Extractor × Element)
  | _, [] => none
  | i, r :: rest =>
    match querySelectorAll r.1 doc with
    | [] => firstHitAux doc (i + 1) rest
    | e :: _ => some (i, r.2, e)

/-- Title rule-set of the catalog. -/
def titleRuleSet : RuleSet :=
  ⟨[(.attrEq "meta" "property" "og:title", .contentAttribute),
    (.attrEq "meta" "name" "twitter:title", .contentAttribute),
    (.attrEq "meta" "property" "twitter:title", .contentAttribute),
    (.attrEq "meta" "name" "hdl", .contentAttribute),
    (.tagSel "title", .textContent)], [], none, []⟩

/-- Description rule-set of the catalog. -/
def descriptionRuleSet : RuleSet :=
  ⟨[(.attrEq "meta" "property" "og:description", .contentAttribute),
    (.attrEq "meta" "name" "description", .contentAttribute)], [], none, []⟩

/-- Snippet rule-set of the catalog; the structural selectors go through the
selector-engine oracle. -/
def snippetRuleSet : RuleSet :=
  ⟨[(.structural "article p", .textContent),
    (.structural "main p", .textContent),
    (.structural "#main p", .textContent),
    (.tagSel "p", .textContent),
    (.tagSel "main", .textContent),
    (.structural ".post__content", .textContent),
    (.structural ".post .content", .textContent),
    (.structural "#pagebody .storycontent", .textContent)],
   [], none, [.snippetCollapse]⟩

/-- Url rule-set of the catalog (the source lists this entry twice with the
same body; the duplicate literal overwrites the first, leaving one entry). -/
def urlRuleSet : RuleSet :=
  ⟨[(.structural "a.amp-canurl", .hrefAttribute),
    (.attrEq "link" "rel" "canonical", .hrefAttribute),
    (.attrEq "meta" "property" "og:url", .contentAttribute)],
   [], some .contextUrl, [.urlAbsolute]⟩

/-- Icon rule-set of the catalog: seven prioritized link selectors, the
sizes scorer, the `favicon.ico` default and URL resolution. -/
def iconRuleSet : RuleSet :=
  ⟨[(.attrEq "link" "rel" "apple-touch-icon", .hrefAttribute),
    (.attrEq "link" "rel" "apple-touch-icon-precomposed", .hrefAttribute),
    (.attrEq "link" "rel" "icon", .hrefAttribute),
    (.attrEq "link" "rel" "fluid-icon", .hrefAttribute),
    (.attrEq "link" "rel" "shortcut icon", .hrefAttribute),
    (.attrEq "link" "rel" "Shortcut Icon", .hrefAttribute),
    (.attrEq "link" "rel" "mask-icon", .hrefAttribute)],
   [.iconSize], some .faviconIco, [.urlAbsolute]⟩

/-- Image rule-set of the catalog. -/
def imageRuleSet : RuleSet :=
  ⟨[(.attrEq "meta" "property" "og:image:secure_url", .contentAttribute),
    (.attrEq "meta" "property" "og:image:url", .contentAttribute),
    (.attrEq "meta" "property" "og:image", .contentAttribute),
    (.attrEq "meta" "name" "twitter:image", .contentAttribute),
    (.attrEq "meta" "property" "twitter:image", .contentAttribute),
    (.attrEq "meta" "name" "thumbnail", .contentAttribute)],
   [], none, [.urlAbsolute]⟩

/-- Type rule-set of the catalog: one rule, no default. -/
def typeRuleSet : RuleSet :=
  ⟨[(.attrEq "meta" "property" "og:type", .contentAttribute)], [], none, []⟩

/-- Keywords rule-set of the catalog. -/
def keywordsRuleSet : RuleSet :=
  ⟨[(.attrEq "meta" "name" "keywords", .contentAttribute)], [], none, [.keywordsSplit]⟩

/-- Language rule-set of the catalog. -/
def languageRuleSet : RuleSet :=
  ⟨[(.attrPresent "html" "lang", .langAttribute),
    (.attrEq "meta" "name" "language", .contentAttribute)],
   [], none, [.languagePrimary]⟩

/-- Provider rule-set of the catalog. -/
def providerRuleSet : RuleSet :=
  ⟨[(.attrEq "meta" "property" "og:site_name", .contentAttribute)],
   [], some .providerFromUrl, []⟩

/-- Source `metadataRuleSets`: the catalog, in the key order of the source
object (the order `Object.keys` iterates in `parse`). -/
def metadataRuleSets : List (String × RuleSet) :=
  [("title", titleRuleSet),
   ("description", descriptionRuleSet),
   ("snippet", snippetRuleSet),
   ("url", urlRuleSet),
   ("icon", iconRuleSet),
   ("image", imageRuleSet),
   ("type", typeRuleSet),
   ("keywords", keywordsRuleSet),
   ("language", languageRuleSet),
   ("provider", providerRuleSet)]

/-- The per-field loop of `parse`: evaluate each rule-set of the catalog in
order against the document; a field evaluation that throws propagates, so
the whole call yields `none`. -/
def mapFields (doc : List Element) (url : String) :
    List (String × RuleSet) → Option (List (String × Value))
  | [] => some []
  | (key, rs) :: rest =>
    match buildRuleSet rs doc ⟨url⟩ with
    | none => none
    | some v =>
      match mapFields doc url rest with
      | none => none
      | some tail => some ((key, v) :: tail)

/-- Source `parse(url, html)`: the html string is parsed into a document by
the external DOM collaborator, so the embedding takes the parsed document; a
fresh context is built from the url and every catalog field is evaluated in
order into the output mapping.  A field whose value is `Value.undefined`
corresponds to a field absent from the serialized output. -/
def parse (url : String) (doc : List Element) : Option (List (String × Value)) :=
  mapFields doc url metadataRuleSets

/-- Concrete icon with sizes 16x16 (from the testable-properties example). -/
def e16 : Element :=
  ⟨"link", [("rel", "icon"), ("href", "https://example.com/small.png"), ("sizes", "16x16")], "", []⟩

/-- Concrete icon with sizes 32x32 (from the testable-properties example). -/
def e32 : Element :=
  ⟨"link", [("rel", "icon"), ("href", "https://example.com/large.png"), ("sizes", "32x32")], "", []⟩

/-- Concrete icon with sizes 9x9, whose scorer string compares above "32"
lexicographically. -/
def e9 : Element :=
  ⟨"link", [("rel", "icon"), ("href", "https://example.com/nine.png"), ("sizes", "9x9")], "", []⟩

/-- Apple-touch icon without sizes: keeps its numeric base score 7. -/
def eTouch : Element :=
  ⟨"link", [("rel", "apple-touch-icon"), ("href", "https://example.com/touch.png")], "", []⟩

/-- Icon with sizes 7x7 at document position 1 (first `rel="icon"`). -/
def icon7a : Element :=
  ⟨"link", [("rel", "icon"), ("href", "https://example.com/b.png"), ("sizes", "7x7")], "", []⟩

/-- Icon with sizes 10x10. -/
def icon10 : Element :=
  ⟨"link", [("rel", "icon"), ("href", "https://example.com/c.png"), ("sizes", "10x10")], "", []⟩

/-- Icon with sizes 7x7 at a later document position. -/
def icon7b : Element :=
  ⟨"link", [("rel", "icon"), ("href", "https://example.com/d.png"), ("sizes", "7x7")], "", []⟩

/-- Meta element carrying an og:title. -/
def ogTitleElem : Element :=
  ⟨"meta", [("property", "og:title"), ("content", "Hello")], "", []⟩

/-- Meta element carrying an hdl title (rule index 3 of the title set). -/
def hdlElem : Element :=
  ⟨"meta", [("name", "hdl"), ("content", "T")], "", []⟩

/-- Meta element carrying keywords `"a, b ,c"`. -/
def kwElem : Element :=
  ⟨"meta", [("name", "keywords"), ("content", "a, b ,c")], "", []⟩

/-- Meta element carrying keywords `"x,,x"` (consecutive commas and a
repeated piece). -/
def kwElem2 : Element :=
  ⟨"meta", [("name", "keywords"), ("content", "x,,x")], "", []⟩

/-- Default context used by concrete evaluations. -/
def ctx0 : Context := ⟨"https://example.com/"⟩

/-- A 600-character string without whitespace, for the truncation witness. -/
def s600 : String := ⟨List.replicate 600 'a'⟩

/-- A value is undefined or a string: the shape every extractor output has. -/
def strOrUndefined (v : Value) : Prop := v = Value.undefined ∨ ∃ s, v = Value.str s

theorem lexLt_irrefl (l : List Char) : lexLt l l = false := by
  induction l with
  | nil => rfl
  | cons c cs ih => simp [lexLt, ih]

theorem jsGt_irrefl (s : ScoreVal) : jsGt s s = false := by
  cases s with
  | num n => simp [jsGt, toNumber]
  | str x => simpa [jsGt] using lexLt_irrefl x.data

theorem splitOnChar_ne_nil (sep : Char) (l : List Char) : splitOnChar sep l ≠ [] := by
  cases l with
  | nil => simp [splitOnChar]
  | cons c rest =>
    rw [splitOnChar]
    by_cases hc : c == sep
    · simp [hc]
    · simp only [hc]
      cases h : splitOnChar sep rest <;> simp [h]

theorem splitOnChar_length (sep : Char) (l : List Char) :
    (splitOnChar sep l).length = countChar sep l + 1 := by
  induction l with
  | nil => rfl
  | cons c rest ih =>
    rw [splitOnChar, countChar]
    by_cases hc : c == sep
    · simp only [hc, if_true, List.length_cons, ih]
      omega
    · simp only [hc, if_false]
      rcases h : splitOnChar sep rest with _ | ⟨p, ps⟩
      · exact absurd h (splitOnChar_ne_nil sep rest)
      · rw [h] at ih
        simpa using ih

theorem collapseAux_no_newline (l : List Char) (b : Bool) :
    ∀ c ∈ collapseAux b l, c ≠ '\n' := by
  induction l generalizing b with
  | nil => intro c hc; simp [collapseAux] at hc
  | cons x rest ih =>
    intro c hc
    rw [collapseAux] at hc
    by_cases hx : isNlOrSpace x
    · rw [if_pos hx] at hc
      cases b with
      | true => exact ih true c hc
      | false =>
        simp only [Bool.false_eq_true, if_false] at hc
        rcases List.mem_cons.mp hc with h | h
        · subst h; decide
        · exact ih true c h
    · rw [if_neg hx] at hc
      rcases List.mem_cons.mp hc with h | h
      · subst h
        intro hEq
        subst hEq
        simp [isNlOrSpace] at hx
      · exact ih false c h

theorem collapseAux_true_head (l : List Char) :
    (collapseAux true l).head? ≠ some ' ' := by
  induction l with
  | nil => simp [collapseAux]
  | cons x rest ih =>
    rw [collapseAux]
    by_cases hx : isNlOrSpace x
    · rw [if_pos hx]
      exact ih
    · rw [if_neg hx]
      intro h
      simp only [List.head?] at h
      have : x = ' ' := by injection h
      subst this
      simp [isNlOrSpace] at hx

theorem noDoubleSpace_cons_of_ne (c : Char) (t : List Char) (hc : c ≠ ' ')
    (ht : noDoubleSpace t = true) : noDoubleSpace (c :: t) = true := by
  cases t with
  | nil => rfl
  | cons x xs =>
    rw [noDoubleSpace]
    have : (c == ' ') = false := by simp [hc]
    simp [this, ht]

theorem noDoubleSpace_space_cons (t : List Char) (hh : t.head? ≠ some ' ')
    (ht : noDoubleSpace t = true) : noDoubleSpace (' ' :: t) = true := by
  cases t with
  | nil => rfl
  | cons x xs =>
    rw [noDoubleSpace]
    have hx : (x == ' ') = false := by
      simp only [List.head?] at hh
      simp only [beq_eq_false_iff_ne, ne_eq]
      intro h; exact hh (by rw [h])
    simp [hx, ht]

theorem collapseAux_noDoubleSpace (l : List Char) (b : Bool) :
    noDoubleSpace (collapseAux b l) = true := by
  induction l generalizing b with
  | nil => rfl
  | cons x rest ih =>
    rw [collapseAux]
    by_cases hx : isNlOrSpace x
    · cases b with
      | true => simpa [hx] using ih true
      | false =>
        simp only [hx, if_pos, Bool.false_eq_true, if_false]
        exact noDoubleSpace_space_cons _ (collapseAux_true_head rest) (ih true)
    · simp only [hx, if_neg, Bool.false_eq_true, not_false_eq_true, if_false]
      refine noDoubleSpace_cons_of_ne x _ ?_ (ih false)
      intro h; subst h; simp [isNlOrSpace] at hx

theorem scoreElement_noScorers (rs : RuleSet) (i : Nat) (e : Element)
    (h : rs.scorers = []) : scoreElement rs i e = baseScore rs i := by
  rw [scoreElement, h]
  rfl

theorem jsGt_num_num (m n : Int) : jsGt (.num m) (.num n) = decide (n < m) := rfl

theorem foldElements_absorb (rs : RuleSet) (i : Nat) (ex : Extractor)
    (h : rs.scorers = []) (elems : List Element) (m : Int) (v : Value)
    (hm : (rs.rules.length : Int) - (i : Int) ≤ m) :
    foldElements rs i ex elems (.num m, v) = (.num m, v) := by
  induction elems with
  | nil => rfl
  | cons e es ih =>
    have hGt : jsGt (scoreElement rs i e) (ScoreVal.num m) = false := by
      rw [scoreElement_noScorers rs i e h, baseScore, jsGt_num_num]
      simpa using by omega
    rw [foldElements]
    simp only [hGt, Bool.false_eq_true, if_false]
    exact ih

theorem foldElements_first (rs : RuleSet) (i : Nat) (ex : Extractor)
    (h : rs.scorers = []) (e : Element) (es : List Element) (m : Int) (v : Value)
    (hm : m < (rs.rules.length : Int) - (i : Int)) :
    foldElements rs i ex (e :: es) (.num m, v) =
      (.num ((rs.rules.length : Int) - (i : Int)), applyExtractor ex e) := by
  have hs := scoreElement_noScorers rs i e h
  have hGt : jsGt (scoreElement rs i e) (ScoreVal.num m) = true := by
    rw [hs, baseScore, jsGt_num_num]
    simpa using hm
  rw [foldElements, if_pos hGt, hs, baseScore]
  exact foldElements_absorb rs i ex h es _ _ (le_refl _)

theorem runRulesAux_absorb (rs : RuleSet) (doc : List Element) (h : rs.scorers = []) :
    ∀ (rules : List (Selector × Extractor)) (i : Nat) (m : Int) (v : Value),
      (rs.rules.length : Int) - (i : Int) ≤ m →
      runRulesAux rs doc i rules (.num m, v) = (.num m, v) := by
  intro rules
  induction rules with
  | nil => intro i m v _; rfl
  | cons r rest ih =>
    intro i m v hm
    obtain ⟨sel, ex⟩ := r
    rw [runRulesAux, foldElements_absorb rs i ex h _ m v hm]
    exact ih (i + 1) m v (by omega)

theorem runRulesAux_search (rs : RuleSet) (doc : List Element) (h : rs.scorers = []) :
    ∀ (rules : List (Selector × Extractor)) (i : Nat),
      i + rules.length ≤ rs.rules.length →
      runRulesAux rs doc i rules (.num 0, .undefined) =
        (match firstHitAux doc i rules with
         | none => (.num 0, .undefined)
         | some (j, ex, e) =>
           (.num ((rs.rules.length : Int) - (j : Int)), applyExtractor ex e)) := by
  intro rules
  induction rules with
  | nil => intro i _; rfl
  | cons r rest ih =>
    intro i hlen
    obtain ⟨sel, ex⟩ := r
    rcases hq : querySelectorAll sel doc with _ | ⟨e, es⟩
    · rw [runRulesAux, hq, firstHitAux, hq]
      exact ih (i + 1) (by simp at hlen; omega)
    · have hi : i < rs.rules.length := by simp at hlen; omega
      rw [runRulesAux, hq,
        foldElements_first rs i ex h e es 0 .undefined (by omega),
        runRulesAux_absorb rs doc h rest (i + 1) _ _ (by omega),
        firstHitAux, hq]

theorem runRules_noScorers (rs : RuleSet) (doc : List Element) (h : rs.scorers = []) :
    runRules rs doc =
      (match firstHitAux doc 0 rs.rules with
       | none => (.num 0, .undefined)
       | some (j, ex, e) =>
         (.num ((rs.rules.length : Int) - (j : Int)), applyExtractor ex e)) := by
  rw [runRules]
  exact runRulesAux_search rs doc h rs.rules 0 (by omega)

theorem applyExtractor_shape (ex : Extractor) (e : Element) :
    strOrUndefined (applyExtractor ex e) := by
  cases ex with
  | hrefAttribute =>
    rcases hg : getAttribute e "href" with _ | s
    · exact Or.inl (by simp [applyExtractor, hg])
    · exact Or.inr ⟨s, by simp [applyExtractor, hg]⟩
  | contentAttribute =>
    rcases hg : getAttribute e "content" with _ | s
    · exact Or.inl (by simp [applyExtractor, hg])
    · exact Or.inr ⟨s, by simp [applyExtractor, hg]⟩
  | textContent => exact Or.inr ⟨e.text, rfl⟩
  | langAttribute =>
    rcases hg : getAttribute e "lang" with _ | s
    · exact Or.inl (by simp [applyExtractor, hg])
    · exact Or.inr ⟨s, by simp [applyExtractor, hg]⟩

theorem foldElements_shape (rs : RuleSet) (i : Nat) (ex : Extractor)
    (elems : List Element) (acc : ScoreVal × Value) (ha : strOrUndefined acc.2) :
    strOrUndefined (foldElements rs i ex elems acc).2 := by
  induction elems generalizing acc with
  | nil => exact ha
  | cons e es ih =>
    rw [foldElements]
    apply ih
    cases hj : jsGt (scoreElement rs i e) acc.1 with
    | false => simpa [hj] using ha
    | true => simpa [hj] using applyExtractor_shape ex e

theorem runRulesAux_shape (rs : RuleSet) (doc : List Element) :
    ∀ (rules : List (Selector × Extractor)) (i : Nat) (acc : ScoreVal × Value),
      strOrUndefined acc.2 → strOrUndefined (runRulesAux rs doc i rules acc).2 := by
  intro rules
  induction rules with
  | nil => intro i acc ha; exact ha
  | cons r rest ih =>
    intro i acc ha
    obtain ⟨sel, ex⟩ := r
    rw [runRulesAux]
    exact ih (i + 1) _ (foldElements_shape rs i ex _ acc ha)

theorem runRules_snd_shape (rs : RuleSet) (doc : List Element) :
    strOrUndefined (runRules rs doc).2 :=
  runRulesAux_shape rs doc rs.rules 0 _ (Or.inl rfl)

theorem mapFields_none_iff (doc : List Element) (url : String) :
    ∀ l : List (String × RuleSet),
      mapFields doc url l = none ↔
        ∃ key rs, (key, rs) ∈ l ∧ buildRuleSet rs doc ⟨url⟩ = none := by
  intro l
  induction l with
  | nil => simp [mapFields]
  | cons kr rest ih =>
    obtain ⟨key, rs⟩ := kr
    rw [mapFields]
    rcases hb : buildRuleSet rs doc ⟨url⟩ with _ | v
    · simp only [true_iff]
      exact ⟨key, rs, List.mem_cons_self _ _, hb⟩
    · rcases hm : mapFields doc url rest with _ | tail
      · simp only [true_iff]
        obtain ⟨k, r, hmem, hnone⟩ := ih.mp hm
        exact ⟨k, r, List.mem_cons_of_mem _ hmem, hnone⟩
      · simp only [reduceCtorEq, false_iff, not_exists]
        intro k r hkr
        rcases List.mem_cons.mp hkr.1 with hhead | htail
        · have : r = rs := (Prod.mk.injEq _ _ _ _ ▸ hhead).2
          rw [this] at hkr
          rw [hkr.2] at hb
          exact absurd hb (by simp)
        · have : mapFields doc url rest = none := ih.mpr ⟨k, r, htail, hkr.2⟩
          rw [this] at hm
          exact absurd hm (by simp)

theorem makeUrlAbsolute_of_bad_base (base rel : String)
    (h : parseUrlParts base = none) : makeUrlAbsolute base rel = none := by
  rw [makeUrlAbsolute, h]

theorem parseUrlParts_none_of (url : String) (h : parseUrl url = none) :
    parseUrlParts url = none := by
  rcases hp : parseUrlParts url with _ | p
  · rfl
  · rw [parseUrl, hp] at h
    simp at h

theorem icon_field_throws (doc : List Element) (url : String)
    (h : parseUrl url = none) : buildRuleSet iconRuleSet doc ⟨url⟩ = none := by
  have hp := parseUrlParts_none_of url h
  have hmk : ∀ rel, makeUrlAbsolute url rel = none :=
    fun rel => makeUrlAbsolute_of_bad_base url rel hp
  rcases runRules_snd_shape iconRuleSet doc with hu | ⟨s, hs⟩
  · rw [buildRuleSet, hu]
    simp [applyDefaultStage, truthyV, iconRuleSet, applyDefault, finishStage,
      runProcessors, applyProcessor, hmk]
    decide
  · rw [buildRuleSet, hs]
    cases hse : s.isEmpty with
    | true =>
      simp [applyDefaultStage, truthyV, hse, iconRuleSet, applyDefault, finishStage,
        runProcessors, applyProcessor, hmk]
      decide
    | false =>
      simp [applyDefaultStage, truthyV, hse, iconRuleSet, finishStage,
        runProcessors, applyProcessor, hmk]

/-- C1: for every rule-set with N rules, the base score of an element
matched by the rule at 0-based index i is N - i; absent scorer overrides the
element score equals the base score, rule 0 scores N, rule N-1 scores 1, and
earlier rules yield strictly higher base scores than later ones. -/
theorem c1_base_score_is_rule_count_minus_index (rs : RuleSet) (i : Nat) (e : Element)
    (h : rs.scorers = []) :
    scoreElement rs i e = baseScore rs i
    ∧ baseScore rs 0 = .num (rs.rules.length : Int)
    ∧ (0 < rs.rules.length → baseScore rs (rs.rules.length - 1) = .num 1)
    ∧ (∀ j k : Nat, j < k → k < rs.rules.length →
        jsGt (baseScore rs j) (baseScore rs k) = true) := by
  refine ⟨scoreElement_noScorers rs i e h, ?_, ?_, ?_⟩
  · simp [baseScore]
  · intro hpos
    simp only [baseScore, ScoreVal.num.injEq]
    omega
  · intro j k hjk hk
    simp only [baseScore, jsGt_num_num, decide_eq_true_eq]
    omega

/-- Witness for C1 at the title rule-set (5 rules, no scorers). -/
theorem c1_base_score_is_rule_count_minus_index_witness :
    scoreElement titleRuleSet 2 e16 = baseScore titleRuleSet 2
    ∧ baseScore titleRuleSet 0 = .num (titleRuleSet.rules.length : Int)
    ∧ baseScore titleRuleSet (titleRuleSet.rules.length - 1) = .num 1
    ∧ jsGt (baseScore titleRuleSet 0) (baseScore titleRuleSet 4) = true := by
  have h := c1_base_score_is_rule_count_minus_index titleRuleSet 2 e16 rfl
  exact ⟨h.1, h.2.1, h.2.2.1 (by decide), h.2.2.2 0 4 (by decide) (by decide)⟩

/-- C2 (amended): the winning value is replaced only on a strict JavaScript
greater-than, so a tied score never overwrites (jsGt is irreflexive); absent
scorer overrides every score is numeric and the winner is the first element
of the first rule with any match, so lower-priority rules never outrank
earlier winners.  (With scorer overrides the string scores compare
lexicographically and a later pair can re-attain an equal score after an
intermediate higher one — see the counterexample.) -/
theorem c2_strict_update_and_priority :
    (∀ s : ScoreVal, jsGt s s = false)
    ∧ (∀ (rs : RuleSet) (doc : List Element), rs.scorers = [] →
        runRules rs doc =
          (match firstHitAux doc 0 rs.rules with
           | none => (.num 0, .undefined)
           | some (j, ex, e) =>
             (.num ((rs.rules.length : Int) - (j : Int)), applyExtractor ex e))) :=
  ⟨jsGt_irrefl, fun rs doc h => runRules_noScorers rs doc h⟩

/-- Witness for C2 at the title rule-set on a document whose only match is
the hdl rule (index 3 of 5): the winner scores 5 - 3 = 2. -/
theorem c2_strict_update_and_priority_witness :
    jsGt (ScoreVal.str "16") (ScoreVal.str "16") = false
    ∧ runRules titleRuleSet [hdlElem] = (.num 2, .str "T") := by
  refine ⟨c2_strict_update_and_priority.1 _, ?_⟩
  rw [c2_strict_update_and_priority.2 titleRuleSet [hdlElem] rfl]
  decide

/-- Counterexample for C2 as stated: in the icon rule-set on the document
[eTouch, icon7a, icon10, icon7b] the accumulator moves num 7 (eTouch), then
str "10" (icon10, since 10 > 7 numerically), then str "7" (icon7b, since "7"
exceeds "10" lexicographically).  The final maximum score is str "7" and the
first pair reaching that score is icon7a (rule 2, document position 1), yet
the value extracted is the href of icon7b — the first pair that reaches the
maximum score does not supply the winning value. -/
theorem c2_first_reach_counterexample :
    runRules iconRuleSet [eTouch, icon7a, icon10, icon7b] =
      (.str "7", .str "https://example.com/d.png")
    ∧ scoreElement iconRuleSet 2 icon7a = .str "7"
    ∧ applyExtractor .hrefAttribute icon7a = .str "https://example.com/b.png"
    ∧ Value.str "https://example.com/b.png" ≠ Value.str "https://example.com/d.png" := by
  decide

/-- C3: the spec example with sizes 16x16 and 32x32 does pick the 32-size
icon, but the general claim (largest declared size wins) fails: with sizes
9x9 and 32x32 the 9-size icon wins, because the scorer returns the digit
run as a string and the JavaScript comparison of two strings is
lexicographic ("32" > "9" is false). -/
theorem c3_icon_size_string_comparison :
    buildRuleSet iconRuleSet [e16, e32] ctx0 =
      some (.str "https://example.com/large.png")
    ∧ buildRuleSet iconRuleSet [e9, e32] ctx0 =
      some (.str "https://example.com/nine.png") := by
  decide

/-- C4 (amended): the fallback chain of the evaluator — a truthy winning
value is processed and trimmed into the field; a falsy winning value falls
back to the default when one exists: a truthy default is processed and
trimmed, while a falsy default (or no default) leaves the field absent. -/
theorem c4_fallback_chain_amended (rs : RuleSet) (doc : List Element) (ctx : Context) :
    (truthyV (runRules rs doc).2 = true →
      buildRuleSet rs doc ctx =
        (runProcessors rs.processors (runRules rs doc).2 ctx).map trimValue)
    ∧ (truthyV (runRules rs doc).2 = false → rs.defaultValue = none →
      buildRuleSet rs doc ctx = some Value.undefined)
    ∧ (∀ d v, truthyV (runRules rs doc).2 = false → rs.defaultValue = some d →
      applyDefault d ctx = some v → truthyV v = true →
      buildRuleSet rs doc ctx = (runProcessors rs.processors v ctx).map trimValue)
    ∧ (∀ d v, truthyV (runRules rs doc).2 = false → rs.defaultValue = some d →
      applyDefault d ctx = some v → truthyV v = false →
      buildRuleSet rs doc ctx = some Value.undefined) := by
  refine ⟨?_, ?_, ?_, ?_⟩
  · intro ht
    rw [buildRuleSet, applyDefaultStage, if_pos ht]
    simp [finishStage, ht]
  · intro hf hd
    rw [buildRuleSet, applyDefaultStage]
    simp only [hf, Bool.false_eq_true, if_false, hd]
    simp [finishStage, hf]
  · intro d v hf hd happ htv
    rw [buildRuleSet, applyDefaultStage]
    simp only [hf, Bool.false_eq_true, if_false, hd, happ]
    simp [finishStage, htv]
  · intro d v hf hd happ htv
    rw [buildRuleSet, applyDefaultStage]
    simp only [hf, Bool.false_eq_true, if_false, hd, happ]
    simp [finishStage, htv]

/-- Witness for C4 at the type rule-set on the empty document: nothing
matches and no default exists, so the field is absent. -/
theorem c4_fallback_chain_amended_witness :
    buildRuleSet typeRuleSet [] ctx0 = some Value.undefined :=
  (c4_fallback_chain_amended typeRuleSet [] ctx0).2.1 (by decide) rfl

/-- Counterexample for C4 as stated: for the provider rule-set with context
url "https://www./" (host "www."), no rule matches, a defaultValue exists
and computes the empty string — yet the field is absent rather than equal to
the processed default. -/
theorem c4_falsy_default_counterexample :
    providerRuleSet.defaultValue = some DefaultVal.providerFromUrl
    ∧ applyDefault DefaultVal.providerFromUrl ⟨"https://www./"⟩ = some (Value.str "")
    ∧ buildRuleSet providerRuleSet [] ⟨"https://www./"⟩ = some Value.undefined
    ∧ Value.undefined ≠ Value.str "" := by
  decide

/-- C5 (amended): field evaluation is not isolated — parse fails exactly
when the rule-set evaluation of some field of the catalog throws, so a
single rule-set fault aborts the whole call and no other field is
returned. -/
theorem c5_no_field_isolation (url : String) (doc : List Element) :
    parse url doc = none ↔
      ∃ key rs, (key, rs) ∈ metadataRuleSets ∧ buildRuleSet rs doc ⟨url⟩ = none :=
  mapFields_none_iff doc url metadataRuleSets

/-- Witness for C5 at a concrete invocation. -/
theorem c5_no_field_isolation_witness :
    parse "not a url" [ogTitleElem] = none ↔
      ∃ key rs, (key, rs) ∈ metadataRuleSets ∧
        buildRuleSet rs [ogTitleElem] ⟨"not a url"⟩ = none :=
  c5_no_field_isolation "not a url" [ogTitleElem]

/-- Counterexample for C5 as stated: with an unparsable context url the
title rule-set alone evaluates fine (to "Hello"), but the whole parse call
throws (the url, icon and image processors and the provider default all
fault), so the other fields are not extracted — one faulting field aborts
everything instead of degrading only itself. -/
theorem c5_isolation_counterexample :
    buildRuleSet titleRuleSet [ogTitleElem] ⟨"not a url"⟩ = some (Value.str "Hello")
    ∧ parse "not a url" [ogTitleElem] = none := by
  decide

/-- C6 (amended): absent an og:site_name element, the provider field equals
the trimmed getProvider of the host of the context url; in the primary
(Sizzle) source variant getProvider only removes the first www-like match
from the host, so the example url yields "example.co.uk", while the
strip/collapse/join derivation the claim describes is the second source
variant, whose getProvider2 maps host "www.example.co.uk" to "example". -/
theorem c6_provider_default_amended :
    (∀ (url host : String) (doc : List Element),
      parseUrl url = some host →
      querySelectorAll (Selector.attrEq "meta" "property" "og:site_name") doc = [] →
      truthyV (Value.str (getProvider host)) = true →
      buildRuleSet providerRuleSet doc ⟨url⟩ = some (Value.str (jsTrim (getProvider host))))
    ∧ getProvider2 "www.example.co.uk" = "example" := by
  constructor
  · intro url host doc hu hq ht
    have hrules : providerRuleSet.rules =
        [(Selector.attrEq "meta" "property" "og:site_name", Extractor.contentAttribute)] := rfl
    have hrun : runRules providerRuleSet doc = (.num 0, .undefined) := by
      rw [runRules, hrules, runRulesAux, hq]
      rfl
    rw [buildRuleSet, hrun]
    rw [applyDefaultStage]
    simp only [truthyV, Bool.false_eq_true, if_false]
    have hdef : providerRuleSet.defaultValue = some DefaultVal.providerFromUrl := rfl
    rw [hdef]
    simp only [applyDefault, hu, Option.map_some]
    simp [finishStage, ht, runProcessors, trimValue]
  · decide

/-- Witness for C6 at the spec example url. -/
theorem c6_provider_default_amended_witness :
    buildRuleSet providerRuleSet [] ⟨"https://www.example.co.uk/page"⟩ =
      some (Value.str "example.co.uk")
    ∧ getProvider2 "www.example.co.uk" = "example" := by
  refine ⟨?_, c6_provider_default_amended.2⟩
  have h := c6_provider_default_amended.1 "https://www.example.co.uk/page"
    "www.example.co.uk" [] (by decide) rfl (by decide)
  rw [h]
  decide

/-- Counterexample for C6 as stated: at the example url the program (primary
variant) leaves the provider field "example.co.uk", not the "example" that
the derivation described by the claim produces. -/
theorem c6_provider_derivation_counterexample :
    buildRuleSet providerRuleSet [] ⟨"https://www.example.co.uk/page"⟩ =
      some (Value.str "example.co.uk")
    ∧ specProviderName "www.example.co.uk" = "example"
    ∧ Value.str "example.co.uk" ≠ Value.str "example" := by
  decide

/-- C7: the snippet processor collapses every run of newlines and spaces to
a single space (no newline and no double space survives) and then cuts the
result to its first 500 characters — exactly 500 when the collapsed text is
longer — before the final trim that the evaluator applies afterwards. -/
theorem c7_snippet_collapse_truncate (s : String) (ctx : Context) :
    applyProcessor Processor.snippetCollapse (Value.str s) ctx =
      some (Value.str ⟨(collapseAux false s.data).take 500⟩)
    ∧ (∀ c ∈ collapseAux false s.data, c ≠ '\n')
    ∧ noDoubleSpace (collapseAux false s.data) = true
    ∧ (500 < (collapseAux false s.data).length →
        ((collapseAux false s.data).take 500).length = 500) := by
  refine ⟨rfl, collapseAux_no_newline s.data false, collapseAux_noDoubleSpace s.data false, ?_⟩
  intro hlen
  simp only [List.length_take]
  omega

theorem collapseAux_replicate_a (n : Nat) :
    collapseAux false (List.replicate n 'a') = List.replicate n 'a' := by
  induction n with
  | zero => rfl
  | succ k ih =>
    rw [List.replicate, collapseAux, if_neg (by decide), ih]

/-- Witness for C7 at a 600-character snippet: the cut is to exactly 500. -/
theorem c7_snippet_collapse_truncate_witness :
    applyProcessor Processor.snippetCollapse (Value.str s600) ctx0 =
      some (Value.str ⟨(collapseAux false s600.data).take 500⟩)
    ∧ ((collapseAux false s600.data).take 500).length = 500 := by
  have h := c7_snippet_collapse_truncate s600 ctx0
  refine ⟨h.1, h.2.2.2 ?_⟩
  have hdat : s600.data = List.replicate 600 'a' := rfl
  rw [hdat, collapseAux_replicate_a, List.length_replicate]
  omega

/-- C8: the keywords processor splits on every comma and trims each piece,
preserving order and dropping nothing (the number of pieces is the comma
count plus one); "a, b ,c" yields ["a", "b", "c"], and "x,,x" keeps the
empty middle piece and the duplicate. -/
theorem c8_keywords_split_trim :
    (∀ (s : String) (ctx : Context),
      applyProcessor Processor.keywordsSplit (Value.str s) ctx =
        some (Value.arr ((splitOnChar ',' s.data).map (fun piece => jsTrim ⟨piece⟩))))
    ∧ (∀ l : List Char, (splitOnChar ',' l).length = countChar ',' l + 1)
    ∧ buildRuleSet keywordsRuleSet [kwElem] ctx0 = some (Value.arr ["a", "b", "c"])
    ∧ buildRuleSet keywordsRuleSet [kwElem2] ctx0 = some (Value.arr ["x", "", "x"]) := by
  refine ⟨fun s ctx => rfl, fun l => splitOnChar_length ',' l, by decide, by decide⟩

/-- C9: parse is a pure function of the url and the parsed document — the
source keeps its catalog in an immutable module constant and writes only the
fresh output object, so the embedding is a function and two invocations on
identical inputs yield identical outputs, each field depending only on its
own rule-set. -/
theorem c9_parse_deterministic (url : String) (doc : List Element) :
    parse url doc = parse url doc
    ∧ parse url doc = mapFields doc url metadataRuleSets :=
  ⟨rfl, rfl⟩

/-- C10: when the context url does not parse, the whole parse call throws:
the icon field always reaches its URL-resolution processor (its default
"favicon.ico" guarantees a truthy value) and resolution against an
unparsable base throws. -/
theorem c10_invalid_url_throws (url : String) (doc : List Element)
    (h : parseUrl url = none) : parse url doc = none :=
  (mapFields_none_iff doc url metadataRuleSets).mpr
    ⟨"icon", iconRuleSet, by decide, icon_field_throws doc url h⟩

/-- Witness for C10 at the unparsable url "x". -/
theorem c10_invalid_url_throws_witness :
    parseUrl "x" = none ∧ parse "x" [] = none :=
  ⟨rfl, c10_invalid_url_throws "x" [] rfl⟩

end PageMetadata
